import Mathlib

/-!
Verification of the yolotext dataset-conversion pipeline (src/main.go).

The Go source is shallowly embedded: pure fragments become Lean functions,
machine `int` values become `Int`/`Nat`, and `float64` arithmetic is idealized
as exact rational arithmetic over `ℚ`.  External library calls (the JPEG
codec, the math/rand shuffle, the filesystem, the clock) are not part of the
repository; they enter the embedding as explicit function parameters or as
`Option`-valued outcomes, so that every repository-side decision made on their
results is modelled faithfully.
-/

/-! ### SmartCompress (src/main.go lines 37-57)

`SmartCompress` starts at JPEG quality 95 and walks down in steps of 5 while
`quality >= 20`; at each level it encodes the image and accepts the encoding
as soon as `buf.Len()/1024 <= maxKB` (Go integer division).  If no level down
to 20 is accepted, it unconditionally writes the quality-20 encoding.  The
codec `jpeg.Encode` is external; it is modelled as a function
`enc : Nat → List Nat` from a quality level to the encoded bytes.  The
embedding returns the bytes that the Go function writes to `outPath`. -/

def scLoop (enc : Nat → List Nat) (maxKB : Int) (quality : Nat) : List Nat :=
  if h : 20 ≤ quality then
    if (((enc quality).length / 1024 : Nat) : Int) ≤ maxKB then enc quality
    else scLoop enc maxKB (quality - 5)
  else enc 20
termination_by quality
decreasing_by omega

/-- SmartCompress writes the bytes produced by the quality-descending scan
starting at quality 95. -/
def smartCompressBytes (enc : Nat → List Nat) (maxKB : Int) : List Nat :=
  scLoop enc maxKB 95

/-- Concrete codec used to refute claim C1 as stated: a small image whose
quality-95 encoding is 1100 bytes and whose other encodings are 600 bytes. -/
def encCex : Nat → List Nat :=
  fun q => if q = 95 then List.replicate 1100 0 else List.replicate 600 0

/-! ### ConvertJsonToYolo (src/main.go lines 83-148)

The JSON document is modelled after its successful `json.Unmarshal` into the
`LabelMeJSON` structure (read/parse failures return the error unchanged and
produce no lines; they are prior, fallible steps outside the per-shape
logic the claims are about).  `float64` coordinates are idealized as exact
rationals.  A produced YOLO line `"%d %.6f %.6f %.6f %.6f"` is modelled by
the record of the five values handed to `fmt.Sprintf`, before decimal
rendering. -/

structure LabelMeShape where
  label : String
  points : List (List ℚ)

structure LabelMeRect where
  name : String
  x1 : ℚ
  y1 : ℚ
  x2 : ℚ
  y2 : ℚ

structure LabelMeJSON where
  shapes : List LabelMeShape
  labels : List LabelMeRect

structure YoloLine where
  cls : Nat
  cx : ℚ
  cy : ℚ
  w : ℚ
  h : ℚ
deriving DecidableEq

/-- Line 110-117: the `add` closure.  `w = x2-x1`, `h = y2-y1`,
`cx = x1 + w/2`, `cy = y1 + h/2`, all divided by the image dimensions. -/
def yoloAdd (imgW imgH : Nat) (cls : Nat) (x1 y1 x2 y2 : ℚ) : YoloLine :=
  let w := x2 - x1
  let h := y2 - y1
  let cx := x1 + w / 2
  let cy := y1 + h / 2
  ⟨cls, cx / (imgW : ℚ), cy / (imgH : ℚ), w / (imgW : ℚ), h / (imgH : ℚ)⟩

/-- Value of Go's `math.MaxFloat64`, exactly `(2^53 - 1) * 2^971`. -/
def maxFloat64 : ℚ := (2 ^ 53 - 1) * 2 ^ 971

structure Extremes where
  minX : ℚ
  minY : ℚ
  maxX : ℚ
  maxY : ℚ

/-- Lines 123-138: one step of the polygon loop.  A point with fewer than two
coordinates is skipped; otherwise the four running extremes are updated by
the four independent comparisons of the source. -/
def updExt (e : Extremes) : List ℚ → Extremes
  | x :: y :: _ =>
      { minX := if x < e.minX then x else e.minX
        minY := if y < e.minY then y else e.minY
        maxX := if x > e.maxX then x else e.maxX
        maxY := if y > e.maxY then y else e.maxY }
  | _ => e

/-- Lines 121-138: fold of the polygon loop starting from the sentinel
extremes `minX = minY = MaxFloat64`, `maxX = maxY = -MaxFloat64`. -/
def polyExtremes (points : List (List ℚ)) : Extremes :=
  points.foldl updExt ⟨maxFloat64, maxFloat64, -maxFloat64, -maxFloat64⟩

/-- Lines 119-141: a polygon shape contributes one line when its label is in
the class map and its point list is non-empty, else nothing. -/
def shapeLines (imgW imgH : Nat) (classMap : String → Option Nat)
    (s : LabelMeShape) : List YoloLine :=
  match classMap s.label with
  | some id =>
      if s.points.length > 0 then
        let e := polyExtremes s.points
        [yoloAdd imgW imgH id e.minX e.minY e.maxX e.maxY]
      else []
  | none => []

/-- Lines 142-146: a rectangle entry contributes one line when its name is in
the class map, directly from its four coordinates, else nothing. -/
def rectLines (imgW imgH : Nat) (classMap : String → Option Nat)
    (r : LabelMeRect) : List YoloLine :=
  match classMap r.name with
  | some id => [yoloAdd imgW imgH id r.x1 r.y1 r.x2 r.y2]
  | none => []

/-- Lines 119-147: all shape lines in order, then all rectangle lines. -/
def convertJsonToYolo (imgW imgH : Nat) (classMap : String → Option Nat)
    (d : LabelMeJSON) : List YoloLine :=
  (d.shapes.map (shapeLines imgW imgH classMap)).flatten ++
    (d.labels.map (rectLines imgW imgH classMap)).flatten

/-- Review-window inverse mapping (src/main.go lines 448-451): from a stored
line back to pixel corners `(x1, y1, x2, y2)`. -/
def denormalize (imgW imgH : Nat) (l : YoloLine) : ℚ × ℚ × ℚ × ℚ :=
  (l.cx * (imgW : ℚ) - l.w * (imgW : ℚ) / 2,
   l.cy * (imgH : ℚ) - l.h * (imgH : ℚ) / 2,
   l.cx * (imgW : ℚ) + l.w * (imgW : ℚ) / 2,
   l.cy * (imgH : ℚ) + l.h * (imgH : ℚ) / 2)

/-! ### Partitioning (src/main.go lines 641-666)

`main` seeds a PRNG with `time.Now().UnixNano()`, shuffles the task list
with `r.Shuffle` (external library call, modelled as a seed-indexed function
`shuffle` together with the guarantee that it permutes its input), computes
`trainC := int(float64(total) * trainR)` and `valC := int(float64(total) *
valR)`, and assigns the subset of task `i` by position: `"train"` if
`i < trainC`, `"val"` if `i < trainC+valC`, else `"test"`. -/

/-- Go's `int(x)` conversion from `float64` truncates toward zero. -/
def goIntCast (q : ℚ) : Int :=
  if 0 ≤ q then ⌊q⌋ else -⌊-q⌋

/-- Lines 653-654: `trainC`/`valC` from the total count and one ratio. -/
def trainCount (n : Nat) (r : ℚ) : Int :=
  goIntCast ((n : ℚ) * r)

/-- Lines 661-666: the subset string chosen for loop index `i`. -/
def subsetOf (trainC valC : Int) (i : Nat) : String :=
  if (i : Int) < trainC then "train"
  else if (i : Int) < trainC + valC then "val"
  else "test"

/-- The `for i, t := range tasks` loop pairing each task with its subset. -/
def assignFrom {α : Type} (trainC valC : Int) : Nat → List α → List (α × String)
  | _, [] => []
  | i, t :: ts => (t, subsetOf trainC valC i) :: assignFrom trainC valC (i + 1) ts

/-- Subset assignment of the whole (already shuffled) task list. -/
def assignSubsets {α : Type} (shuffled : List α) (trainR valR : ℚ) :
    List (α × String) :=
  assignFrom (trainCount shuffled.length trainR) (trainCount shuffled.length valR)
    0 shuffled

/-- Partition stage as `main` actually runs it: the PRNG is external
(`rand.New(rand.NewSource(seed))` + `r.Shuffle`, src/main.go lines 641-642),
entering the embedding as a seed-indexed list transformer; in `main` the
seed is `time.Now().UnixNano()`.  The subset of every task is fixed by
position in the spawning loop (lines 658-666) before any worker goroutine
runs, so the completion order `_order` of the concurrent workers does not
enter the assignment at all. -/
def runAssignment {α : Type} (shuffle : Int → List α → List α) (seed : Int)
    (tasks : List α) (trainR valR : ℚ) (_order : List Nat) : List (α × String) :=
  assignSubsets (shuffle seed tasks) trainR valR

/-! ### Progress reporting (src/main.go lines 652-709)

Each worker goroutine ends with `progressBar.SetValue(float64(idx+1) /
float64(total))` (line 706), where `idx` is the task's position in the
shuffled list — not a completed-task counter.  A run's observable progress
sequence is therefore determined by the order in which workers finish: if
the `k`-th completion is task `order[k]`, the `k`-th reported value is
`(order[k]+1)/total`.  The admission gate (`limit`, capacity 4, lines
656-659) means task `i` is only spawned after at least `i-3` completions,
so any completion order satisfies `order[k] ≤ k+3`. -/

def reportedProgress (total : Nat) (order : List Nat) : List ℚ :=
  order.map (fun idx : Nat => ((idx : ℚ) + 1) / (total : ℚ))

def admissibleOrder (total : Nat) (order : List Nat) : Prop :=
  order.Perm (List.range total) ∧ ∀ k, k < order.length → order.getD k 0 ≤ k + 3

/-- Statement of claim C2 for one run: every reported value equals
completed-count over total, and the sequence is monotonically
non-decreasing. -/
def progressClaim (total : Nat) (order : List Nat) : Prop :=
  reportedProgress total order =
      (List.range total).map (fun k : Nat => ((k : ℚ) + 1) / (total : ℚ)) ∧
    List.Chain' (· ≤ ·) (reportedProgress total order)

/-! ### Per-task pipeline (src/main.go lines 668-709)

Each task's goroutine opens and decodes its image (full decode when
processing is enabled, header-only `DecodeConfig` when not); on success it
writes the image output and records the dimensions, otherwise `imgW` stays
0.  The label step runs only when the annotation file exists and `imgW > 0`,
and writes only when `ConvertJsonToYolo` succeeds.  The fallible external
outcomes (decode, header probe, `os.Stat`, JSON parse) are the fields of
`TaskEnv`; what the task writes is recorded in `TaskResult`. -/

structure TaskEnv where
  decoded : Option (Nat × Nat)
  header : Option (Nat × Nat)
  jsonExists : Bool
  jsonDoc : Option LabelMeJSON

structure TaskResult where
  imageWritten : Bool
  labelWritten : Option (List YoloLine)
  convAttempted : Bool

/-- One task of the batch, lines 668-707 (minus the progress report). -/
def processTask (doProc : Bool) (cm : String → Option Nat) (env : TaskEnv) :
    TaskResult :=
  let dims := (if doProc then env.decoded else env.header).getD (0, 0)
  let imageWritten := (if doProc then env.decoded else env.header).isSome
  let convAttempted := env.jsonExists && decide (0 < dims.1)
  let labelWritten :=
    if convAttempted then
      match env.jsonDoc with
      | some doc => some (convertJsonToYolo dims.1 dims.2 cm doc)
      | none => none
    else none
  ⟨imageWritten, labelWritten, convAttempted⟩

/-- The batch: every task is handed independently to its own worker
(goroutine with its own `recover`, lines 668-673); `wg.Wait` (line 709)
makes the batch block until all results exist. -/
def runBatch (doProc : Bool) (cm : String → Option Nat) (envs : List TaskEnv) :
    List TaskResult :=
  envs.map (processTask doProc cm)

/-! ### removeLabelFromFile (src/main.go lines 361-377)

The label-file editor splits the file on `"\n"`, walks the lines once with a
`deleted` flag — skipping the first line whose trimmed text equals the
trimmed target and dropping every line whose trimmed text is empty — and
rewrites the file as the survivors joined by a single `"\n"` (no trailing
newline). -/

def removeLoop (target : String) : List String → Bool → List String
  | [], _ => []
  | l :: ls, deleted =>
    if deleted = false ∧ l.trim = target.trim then removeLoop target ls true
    else if l.trim ≠ "" then l :: removeLoop target ls deleted
    else removeLoop target ls deleted

/-- Lines 361-375: whole-file remove operation. -/
def removeLabelFromFile (content target : String) : String :=
  String.intercalate "\n" (removeLoop target (content.splitOn "\n") false)

theorem scLoop_exists_quality (enc : Nat → List Nat) (maxKB : Int) :
    ∀ q : Nat, ∃ q' : Nat, 20 ≤ q' ∧ q' ≤ max q 20 ∧
      scLoop enc maxKB q = enc q' := by
  intro q
  induction q using Nat.strong_induction_on with
  | _ q ih =>
    rw [scLoop]
    by_cases h : 20 ≤ q
    · rw [dif_pos h]
      by_cases hacc : (((enc q).length / 1024 : Nat) : Int) ≤ maxKB
      · rw [if_pos hacc]
        exact ⟨q, h, by omega, rfl⟩
      · rw [if_neg hacc]
        obtain ⟨q', hq1, hq2, hq3⟩ := ih (q - 5) (by omega)
        exact ⟨q', hq1, by omega, hq3⟩
    · rw [dif_neg h]
      exact ⟨20, by omega, by omega, rfl⟩

theorem scLoop_exists_quality_max95 (enc : Nat → List Nat) (maxKB : Int) :
    ∃ q' : Nat, 20 ≤ q' ∧ q' ≤ 95 ∧ smartCompressBytes enc maxKB = enc q' := by
  obtain ⟨q', h1, h2, h3⟩ := scLoop_exists_quality enc maxKB 95
  exact ⟨q', h1, by omega, h3⟩

theorem scLoop_budget (enc : Nat → List Nat) (maxKB : Int)
    (h20 : (((enc 20).length / 1024 : Nat) : Int) ≤ maxKB) :
    ∀ q : Nat, 20 ≤ q → q % 5 = 0 →
      (((scLoop enc maxKB q).length / 1024 : Nat) : Int) ≤ maxKB := by
  intro q
  induction q using Nat.strong_induction_on with
  | _ q ih =>
    intro hq hmod
    rw [scLoop, dif_pos hq]
    by_cases hacc : (((enc q).length / 1024 : Nat) : Int) ≤ maxKB
    · rw [if_pos hacc]; exact hacc
    · rw [if_neg hacc]
      have hne : q ≠ 20 := by
        intro he; rw [he] at hacc; exact hacc h20
      exact ih (q - 5) (by omega) (by omega) (by omega)

/-- C1: the claim asserts that whenever `maxKB` is at least the quality-20
encoded size in KiB, `SmartCompress` writes at most `maxKB * 1024` bytes.
This is false: a quality level is accepted as soon as
`buf.Len()/1024 <= maxKB` (Go integer division, src/main.go line 46), which
tolerates up to 1023 bytes beyond `maxKB * 1024`.  Concretely, for a codec
whose quality-95 output is 1100 bytes (and 600 bytes at every other level)
and `maxKB = 1`, the quality-20 size in KiB is 0 ≤ 1 (and 600 ≤ 1024 bytes),
yet the accepted output is 1100 > 1024 bytes. -/
theorem C1_counterexample :
    (((encCex 20).length / 1024 : Nat) : Int) ≤ 1 ∧
    (encCex 20).length ≤ 1 * 1024 ∧
    ¬ (smartCompressBytes encCex 1).length ≤ 1 * 1024 := by
  have hl95 : (encCex 95).length = 1100 := by
    rw [show encCex 95 = List.replicate 1100 0 from rfl, List.length_replicate]
  have hl20 : (encCex 20).length = 600 := by
    rw [show encCex 20 = List.replicate 600 0 from rfl, List.length_replicate]
  have hacc : (((encCex 95).length / 1024 : Nat) : Int) ≤ 1 := by
    rw [hl95]; norm_num
  have h : smartCompressBytes encCex 1 = encCex 95 := by
    rw [smartCompressBytes, scLoop, dif_pos (by norm_num : (20:Nat) ≤ 95), if_pos hacc]
  refine ⟨by rw [hl20]; norm_num, by rw [hl20]; norm_num, ?_⟩
  rw [h, hl95]
  norm_num

/-- C1 (amended): for every image (modelled by its per-quality encoding
`enc`, never empty, as `jpeg.Encode` always emits data) and every
`maxKilobytes`, `SmartCompress` returns the encoding of some quality level in
`[20, 95]` (never fails, never empty — in particular for `maxKilobytes`
below the minimum achievable), and whenever `maxKilobytes` is at least the
quality-20 size in KiB, the output's byte length divided by 1024 with integer
division is at most `maxKilobytes` — i.e. the output is at most
`maxKilobytes * 1024 + 1023` bytes, not `maxKilobytes * 1024`; a quality
level is accepted exactly when its encoded byte length divided by 1024 with
integer division is ≤ `maxKilobytes` (src/main.go line 46). -/
theorem C1_amended (enc : Nat → List Nat) (maxKB : Int)
    (hne : ∀ q, enc q ≠ []) :
    (∃ q, 20 ≤ q ∧ q ≤ 95 ∧ smartCompressBytes enc maxKB = enc q) ∧
    smartCompressBytes enc maxKB ≠ [] ∧
    ((((enc 20).length / 1024 : Nat) : Int) ≤ maxKB →
      (((smartCompressBytes enc maxKB).length / 1024 : Nat) : Int) ≤ maxKB) := by
  obtain ⟨q', h1, h2, h3⟩ := scLoop_exists_quality_max95 enc maxKB
  refine ⟨⟨q', h1, h2, h3⟩, ?_, ?_⟩
  · rw [h3]; exact hne q'
  · intro h20
    exact scLoop_budget enc maxKB h20 95 (by omega) (by omega)

/-- C1 witness: the amended theorem applied to the concrete codec `encCex`
with `maxKB = -1` (a budget below any achievable size, exercising the
never-fails branch). -/
theorem C1_witness :
    smartCompressBytes encCex (-1) ≠ [] ∧
    (((smartCompressBytes encCex 1).length / 1024 : Nat) : Int) ≤ 1 := by
  have h : ∀ q, encCex q ≠ [] := by
    intro q
    have hpos : 0 < (encCex q).length := by
      by_cases hq : q = 95
      · subst hq
        rw [show encCex 95 = List.replicate 1100 0 from rfl, List.length_replicate]
        norm_num
      · rw [show encCex q =
              (if q = 95 then List.replicate 1100 0 else List.replicate 600 0) from rfl,
            if_neg hq, List.length_replicate]
        norm_num
    exact List.length_pos.mp hpos
  constructor
  · exact (C1_amended encCex (-1) h).2.1
  · refine (C1_amended encCex 1 h).2.2 ?_
    rw [show encCex 20 = List.replicate 600 0 from rfl, List.length_replicate]
    norm_num

/-- C4: for every rectangle `(x1,y1,x2,y2)` and image size `(W,H)` with
`W > 0` and `H > 0`, converting to a NormalizedBox via the `add` closure
(src/main.go lines 110-117) and mapping back via
`(cx*W - w*W/2, cy*H - h*H/2, cx*W + w*W/2, cy*H + h*H/2)` (the review-window
math, lines 448-451) reproduces `(x1,y1,x2,y2)` — exactly over the idealized
rational arithmetic, hence in particular within the claimed tolerance
`1e-4`. -/
theorem C4_roundtrip (imgW imgH : Nat) (hW : 0 < imgW) (hH : 0 < imgH)
    (cls : Nat) (x1 y1 x2 y2 : ℚ) :
    denormalize imgW imgH (yoloAdd imgW imgH cls x1 y1 x2 y2) = (x1, y1, x2, y2) ∧
    |(denormalize imgW imgH (yoloAdd imgW imgH cls x1 y1 x2 y2)).1 - x1| ≤ 1 / 10000 ∧
    |(denormalize imgW imgH (yoloAdd imgW imgH cls x1 y1 x2 y2)).2.1 - y1| ≤ 1 / 10000 ∧
    |(denormalize imgW imgH (yoloAdd imgW imgH cls x1 y1 x2 y2)).2.2.1 - x2| ≤ 1 / 10000 ∧
    |(denormalize imgW imgH (yoloAdd imgW imgH cls x1 y1 x2 y2)).2.2.2 - y2| ≤ 1 / 10000 := by
  have hW0 : (imgW : ℚ) ≠ 0 := by
    exact_mod_cast Nat.pos_iff_ne_zero.mp hW
  have hH0 : (imgH : ℚ) ≠ 0 := by
    exact_mod_cast Nat.pos_iff_ne_zero.mp hH
  have heq : denormalize imgW imgH (yoloAdd imgW imgH cls x1 y1 x2 y2) = (x1, y1, x2, y2) := by
    simp only [denormalize, yoloAdd, Prod.mk.injEq]
    refine ⟨?_, ?_, ?_, ?_⟩ <;> field_simp <;> ring
  refine ⟨heq, ?_, ?_, ?_, ?_⟩ <;> rw [heq] <;> norm_num

/-- C4 witness: the round trip at the end-to-end example of the spec,
rectangle `(10,10,30,20)` in a 100×50 image. -/
theorem C4_witness :
    denormalize 100 50 (yoloAdd 100 50 0 10 10 30 20) = (10, 10, 30, 20) :=
  (C4_roundtrip 100 50 (by norm_num) (by norm_num) 0 10 10 30 20).1

theorem shapeLines_eq_nil (imgW imgH : Nat) (cm : String → Option Nat)
    (s : LabelMeShape) (h : cm s.label = none) :
    shapeLines imgW imgH cm s = [] := by
  simp [shapeLines, h]

theorem rectLines_eq_nil (imgW imgH : Nat) (cm : String → Option Nat)
    (r : LabelMeRect) (h : cm r.name = none) :
    rectLines imgW imgH cm r = [] := by
  simp [rectLines, h]

theorem flatten_filter_isSome_shapes (imgW imgH : Nat) (cm : String → Option Nat) :
    ∀ ss : List LabelMeShape,
      ((ss.filter fun s => (cm s.label).isSome).map (shapeLines imgW imgH cm)).flatten =
        (ss.map (shapeLines imgW imgH cm)).flatten := by
  intro ss
  induction ss with
  | nil => rfl
  | cons s ss ih =>
    cases hc : cm s.label with
    | some id => simp [List.filter_cons, hc, ih]
    | none => simp [List.filter_cons, hc, shapeLines_eq_nil imgW imgH cm s hc, ih]

theorem flatten_filter_isSome_rects (imgW imgH : Nat) (cm : String → Option Nat) :
    ∀ rs : List LabelMeRect,
      ((rs.filter fun r => (cm r.name).isSome).map (rectLines imgW imgH cm)).flatten =
        (rs.map (rectLines imgW imgH cm)).flatten := by
  intro rs
  induction rs with
  | nil => rfl
  | cons r rs ih =>
    cases hc : cm r.name with
    | some id => simp [List.filter_cons, hc, ih]
    | none => simp [List.filter_cons, hc, rectLines_eq_nil imgW imgH cm r hc, ih]

/-- C5: shapes (polygon or rectangle) whose label is absent from the class
map contribute zero output lines — dropping them beforehand leaves the
output unchanged — and the conversion is a total function on parsed
documents: a document with zero recognized labels yields the empty line
list, not an error (src/main.go lines 119-147, guards at 120 and 143). -/
theorem C5_class_filter (imgW imgH : Nat) (cm : String → Option Nat)
    (d : LabelMeJSON) :
    convertJsonToYolo imgW imgH cm
        ⟨d.shapes.filter (fun s => (cm s.label).isSome),
         d.labels.filter (fun r => (cm r.name).isSome)⟩ =
      convertJsonToYolo imgW imgH cm d ∧
    ((∀ s ∈ d.shapes, cm s.label = none) →
      (∀ r ∈ d.labels, cm r.name = none) →
        convertJsonToYolo imgW imgH cm d = []) := by
  have hmain : convertJsonToYolo imgW imgH cm
      ⟨d.shapes.filter (fun s => (cm s.label).isSome),
       d.labels.filter (fun r => (cm r.name).isSome)⟩ =
      convertJsonToYolo imgW imgH cm d := by
    simp only [convertJsonToYolo]
    rw [flatten_filter_isSome_shapes, flatten_filter_isSome_rects]
  refine ⟨hmain, ?_⟩
  intro hs hr
  have hfs : d.shapes.filter (fun s => (cm s.label).isSome) = [] := by
    rw [List.filter_eq_nil_iff]
    intro s hm
    simp [hs s hm]
  have hfr : d.labels.filter (fun r => (cm r.name).isSome) = [] := by
    rw [List.filter_eq_nil_iff]
    intro r hm
    simp [hr r hm]
  rw [← hmain, hfs, hfr]
  rfl

/-- C5 witness: a document with one polygon shape and one rectangle, under a
class map recognizing nothing, converts to the empty list. -/
theorem C5_witness :
    convertJsonToYolo 10 10 (fun _ => none)
      ⟨[⟨"a", [[1, 2]]⟩], [⟨"b", 1, 2, 3, 4⟩]⟩ = [] :=
  (C5_class_filter 10 10 (fun _ => none)
      ⟨[⟨"a", [[1, 2]]⟩], [⟨"b", 1, 2, 3, 4⟩]⟩).2
    (fun _ _ => rfl) (fun _ _ => rfl)

/-- C7: every rectangle entry whose name is in the class map emits exactly
one line built directly from its four coordinates (src/main.go lines
142-146), with no validation that `x2 > x1` or `y2 > y1`; an inverted
rectangle passes through the same center/width formula and yields a line
with negative normalized width (resp. height), and conversion still
succeeds (the line is produced, not an error). -/
theorem C7_rect_no_validation (imgW imgH : Nat) (cm : String → Option Nat)
    (r : LabelMeRect) (id : Nat) (hid : cm r.name = some id)
    (hW : 0 < imgW) (hH : 0 < imgH) :
    rectLines imgW imgH cm r = [yoloAdd imgW imgH id r.x1 r.y1 r.x2 r.y2] ∧
    convertJsonToYolo imgW imgH cm ⟨[], [r]⟩ =
      [yoloAdd imgW imgH id r.x1 r.y1 r.x2 r.y2] ∧
    (r.x2 < r.x1 → (yoloAdd imgW imgH id r.x1 r.y1 r.x2 r.y2).w < 0) ∧
    (r.y2 < r.y1 → (yoloAdd imgW imgH id r.x1 r.y1 r.x2 r.y2).h < 0) := by
  have hWq : (0 : ℚ) < (imgW : ℚ) := by exact_mod_cast hW
  have hHq : (0 : ℚ) < (imgH : ℚ) := by exact_mod_cast hH
  refine ⟨by simp [rectLines, hid], by simp [convertJsonToYolo, rectLines, hid], ?_, ?_⟩
  · intro hx
    have : r.x2 - r.x1 < 0 := by linarith
    exact div_neg_of_neg_of_pos this hWq
  · intro hy
    have : r.y2 - r.y1 < 0 := by linarith
    exact div_neg_of_neg_of_pos this hHq

/-- C7 witness: the inverted rectangle `(x1,y1,x2,y2) = (30,20,10,5)` with a
mapped label, in a 100×50 image, emits exactly one line whose normalized
width and height are negative. -/
theorem C7_witness :
    convertJsonToYolo 100 50 (fun s => if s = "x" then some 0 else none)
        ⟨[], [⟨"x", 30, 20, 10, 5⟩]⟩ =
      [yoloAdd 100 50 0 30 20 10 5] ∧
    (yoloAdd 100 50 0 30 20 10 5).w < 0 ∧ (yoloAdd 100 50 0 30 20 10 5).h < 0 := by
  have h := C7_rect_no_validation 100 50 (fun s => if s = "x" then some 0 else none)
    ⟨"x", 30, 20, 10, 5⟩ 0 (by norm_num) (by norm_num) (by norm_num)
  exact ⟨h.2.1, h.2.2.1 (by norm_num), h.2.2.2 (by norm_num)⟩

theorem updExt_short (e : Extremes) (p : List ℚ) (h : p.length < 2) :
    updExt e p = e := by
  cases p with
  | nil => rfl
  | cons x t =>
    cases t with
    | nil => rfl
    | cons y t2 => simp at h; omega

theorem foldl_updExt_short :
    ∀ (pts : List (List ℚ)) (e : Extremes),
      (∀ p ∈ pts, p.length < 2) → pts.foldl updExt e = e := by
  intro pts
  induction pts with
  | nil => intro e _; rfl
  | cons p ps ih =>
    intro e h
    rw [List.foldl_cons, updExt_short e p (h p (by simp))]
    exact ih e (fun q hq => h q (by simp [hq]))

/-- C9: a polygon shape whose label is mapped and whose point list is
non-empty but contains only points with fewer than 2 coordinates passes the
`len(shape.Points) > 0` guard (src/main.go line 120) while the inner loop
(lines 123-138) skips every point, so the untouched sentinels
`minX = minY = MaxFloat64`, `maxX = maxY = -MaxFloat64` feed `add`: one line
is still emitted, with huge-magnitude negative normalized width and height
(`w * W = h * H = -2 * MaxFloat64`), instead of the shape being skipped. -/
theorem C9_sentinel_line (imgW imgH : Nat) (cm : String → Option Nat)
    (s : LabelMeShape) (id : Nat) (hid : cm s.label = some id)
    (hne : s.points ≠ []) (hshort : ∀ p ∈ s.points, p.length < 2)
    (hW : 0 < imgW) (hH : 0 < imgH) :
    convertJsonToYolo imgW imgH cm ⟨[s], []⟩ =
      [yoloAdd imgW imgH id maxFloat64 maxFloat64 (-maxFloat64) (-maxFloat64)] ∧
    (yoloAdd imgW imgH id maxFloat64 maxFloat64 (-maxFloat64) (-maxFloat64)).w < 0 ∧
    (yoloAdd imgW imgH id maxFloat64 maxFloat64 (-maxFloat64) (-maxFloat64)).h < 0 ∧
    (yoloAdd imgW imgH id maxFloat64 maxFloat64 (-maxFloat64) (-maxFloat64)).w * (imgW : ℚ) =
      -(2 * maxFloat64) := by
  have hWq : (0 : ℚ) < (imgW : ℚ) := by exact_mod_cast hW
  have hHq : (0 : ℚ) < (imgH : ℚ) := by exact_mod_cast hH
  have hmaxpos : (0 : ℚ) < maxFloat64 := by rw [maxFloat64]; norm_num
  have hneg : -maxFloat64 - maxFloat64 < 0 := by linarith
  have hext : polyExtremes s.points = ⟨maxFloat64, maxFloat64, -maxFloat64, -maxFloat64⟩ := by
    unfold polyExtremes
    exact foldl_updExt_short s.points _ hshort
  have hlen : s.points.length > 0 := List.length_pos.mpr hne
  refine ⟨?_, ?_, ?_, ?_⟩
  · simp [convertJsonToYolo, shapeLines, hid, hlen, hext]
  · exact div_neg_of_neg_of_pos hneg hWq
  · exact div_neg_of_neg_of_pos hneg hHq
  · show (-maxFloat64 - maxFloat64) / (imgW : ℚ) * (imgW : ℚ) = -(2 * maxFloat64)
    field_simp
    ring

/-- C9 witness: the shape `{label: "a", points: [[5]]}` (one point with one
coordinate) under a class map sending "a" to 0, in a 100×50 image. -/
theorem C9_witness :
    convertJsonToYolo 100 50 (fun t => if t = "a" then some 0 else none)
        ⟨[⟨"a", [[5]]⟩], []⟩ =
      [yoloAdd 100 50 0 maxFloat64 maxFloat64 (-maxFloat64) (-maxFloat64)] ∧
    (yoloAdd 100 50 0 maxFloat64 maxFloat64 (-maxFloat64) (-maxFloat64)).w < 0 := by
  have h := C9_sentinel_line 100 50 (fun t => if t = "a" then some 0 else none)
    ⟨"a", [[5]]⟩ 0 (by norm_num) (by simp)
    (by intro p hp; simp at hp; subst hp; simp) (by norm_num) (by norm_num)
  exact ⟨h.1, h.2.1⟩

theorem assignFrom_filter_train {α : Type} (tcn vcn : Nat) :
    ∀ (ts : List α) (i : Nat),
      ((assignFrom (tcn : Int) (vcn : Int) i ts).filter
          (fun p => p.2 == "train")).map Prod.fst = ts.take (tcn - i) := by
  intro ts
  induction ts with
  | nil => intro i; simp [assignFrom]
  | cons t ts ih =>
    intro i
    by_cases hlt : i < tcn
    · have hsub : subsetOf (tcn : Int) (vcn : Int) i = "train" := by
        unfold subsetOf
        rw [if_pos (by exact_mod_cast hlt)]
      have hs : tcn - i = (tcn - (i + 1)) + 1 := by omega
      rw [assignFrom, List.filter_cons_of_pos (by simp [hsub]), List.map_cons,
        ih (i + 1), hs, List.take_succ_cons]
    · have hsub : subsetOf (tcn : Int) (vcn : Int) i ≠ "train" := by
        unfold subsetOf
        rw [if_neg (by exact_mod_cast hlt)]
        split
        · decide
        · decide
      have hs : tcn - i = 0 := by omega
      have hs2 : tcn - (i + 1) = 0 := by omega
      rw [assignFrom, List.filter_cons_of_neg (by simp [hsub]), ih (i + 1), hs, hs2]
      simp

theorem assignFrom_filter_val {α : Type} (tcn vcn : Nat) :
    ∀ (ts : List α) (i : Nat),
      ((assignFrom (tcn : Int) (vcn : Int) i ts).filter
          (fun p => p.2 == "val")).map Prod.fst =
        (ts.drop (tcn - i)).take (tcn + vcn - max i tcn) := by
  intro ts
  induction ts with
  | nil => intro i; simp [assignFrom]
  | cons t ts ih =>
    intro i
    by_cases hlt : i < tcn
    · have hsub : subsetOf (tcn : Int) (vcn : Int) i = "train" := by
        unfold subsetOf
        rw [if_pos (by exact_mod_cast hlt)]
      have hs : tcn - i = (tcn - (i + 1)) + 1 := by omega
      have hm1 : max i tcn = tcn := by omega
      have hm2 : max (i + 1) tcn = tcn := by omega
      rw [assignFrom, List.filter_cons_of_neg (by simp [hsub]), ih (i + 1), hm2, hs,
        List.drop_succ_cons, hm1]
    · by_cases hlt2 : i < tcn + vcn
      · have hsub : subsetOf (tcn : Int) (vcn : Int) i = "val" := by
          unfold subsetOf
          rw [if_neg (by exact_mod_cast hlt), if_pos (by exact_mod_cast hlt2)]
        have hs : tcn - i = 0 := by omega
        have hs2 : tcn - (i + 1) = 0 := by omega
        have hm1 : max i tcn = i := by omega
        have hm2 : max (i + 1) tcn = i + 1 := by omega
        have hs3 : tcn + vcn - i = (tcn + vcn - (i + 1)) + 1 := by omega
        rw [assignFrom, List.filter_cons_of_pos (by simp [hsub]), List.map_cons,
          ih (i + 1), hs2, List.drop_zero, hm2, hs, List.drop_zero, hm1, hs3,
          List.take_succ_cons]
      · have hsub : subsetOf (tcn : Int) (vcn : Int) i = "test" := by
          unfold subsetOf
          rw [if_neg (by exact_mod_cast hlt), if_neg (by exact_mod_cast hlt2)]
        have hs : tcn - i = 0 := by omega
        have hs2 : tcn - (i + 1) = 0 := by omega
        have hm1 : tcn + vcn - max i tcn = 0 := by omega
        have hm2 : tcn + vcn - max (i + 1) tcn = 0 := by omega
        rw [assignFrom, List.filter_cons_of_neg (by simp [hsub]), ih (i + 1), hs2, hm2, hs, hm1]
        simp

theorem assignFrom_filter_test {α : Type} (tcn vcn : Nat) :
    ∀ (ts : List α) (i : Nat),
      ((assignFrom (tcn : Int) (vcn : Int) i ts).filter
          (fun p => p.2 == "test")).map Prod.fst = ts.drop (tcn + vcn - i) := by
  intro ts
  induction ts with
  | nil => intro i; simp [assignFrom]
  | cons t ts ih =>
    intro i
    by_cases hlt2 : i < tcn + vcn
    · have hsub : subsetOf (tcn : Int) (vcn : Int) i ≠ "test" := by
        unfold subsetOf
        by_cases hlt : i < tcn
        · rw [if_pos (by exact_mod_cast hlt)]
          decide
        · rw [if_neg (by exact_mod_cast hlt), if_pos (by exact_mod_cast hlt2)]
          decide
      have hs : tcn + vcn - i = (tcn + vcn - (i + 1)) + 1 := by omega
      rw [assignFrom, List.filter_cons_of_neg (by simp [hsub]), ih (i + 1), hs,
        List.drop_succ_cons]
    · have hsub : subsetOf (tcn : Int) (vcn : Int) i = "test" := by
        unfold subsetOf
        rw [if_neg (by exact_mod_cast (show ¬ i < tcn by omega)),
          if_neg (by exact_mod_cast hlt2)]
      have hs : tcn + vcn - i = 0 := by omega
      have hs2 : tcn + vcn - (i + 1) = 0 := by omega
      rw [assignFrom, List.filter_cons_of_pos (by simp [hsub]), List.map_cons,
        ih (i + 1), hs2, hs]
      simp

/-- C3: for ratios `0 ≤ r_train`, `0 ≤ r_val` with `r_train + r_val ≤ 1`
(Go's `int(x)` truncation coincides with the floor on these non-negative
products), the partition stage assigns exactly `⌊N*r_train⌋` tasks to train
— the first positions after shuffling — exactly `⌊N*r_val⌋` to val — the
next positions — and the remaining `N - ⌊N*r_train⌋ - ⌊N*r_val⌋` to test;
the three subsets concatenated are a permutation of the input task list
(every task in exactly one subset, no duplication, no loss), and zero tasks
yields an empty result rather than an error (src/main.go lines 641-666). -/
theorem C3_partition {α : Type} (tasks shuffled : List α) (tR vR : ℚ)
    (hperm : shuffled.Perm tasks) (ht : 0 ≤ tR) (hv : 0 ≤ vR)
    (hsum : tR + vR ≤ 1) :
    ((assignSubsets shuffled tR vR).filter (fun p => p.2 == "train")).map Prod.fst =
        shuffled.take (⌊(tasks.length : ℚ) * tR⌋).toNat ∧
    ((assignSubsets shuffled tR vR).filter (fun p => p.2 == "val")).map Prod.fst =
        (shuffled.drop (⌊(tasks.length : ℚ) * tR⌋).toNat).take
          (⌊(tasks.length : ℚ) * vR⌋).toNat ∧
    ((assignSubsets shuffled tR vR).filter (fun p => p.2 == "train")).length =
        (⌊(tasks.length : ℚ) * tR⌋).toNat ∧
    ((assignSubsets shuffled tR vR).filter (fun p => p.2 == "val")).length =
        (⌊(tasks.length : ℚ) * vR⌋).toNat ∧
    ((assignSubsets shuffled tR vR).filter (fun p => p.2 == "test")).length =
        tasks.length - (⌊(tasks.length : ℚ) * tR⌋).toNat -
          (⌊(tasks.length : ℚ) * vR⌋).toNat ∧
    (((assignSubsets shuffled tR vR).filter (fun p => p.2 == "train")).map Prod.fst ++
        (((assignSubsets shuffled tR vR).filter (fun p => p.2 == "val")).map Prod.fst ++
          ((assignSubsets shuffled tR vR).filter (fun p => p.2 == "test")).map
            Prod.fst)).Perm tasks ∧
    (tasks = [] → assignSubsets shuffled tR vR = []) := by
  have hN : shuffled.length = tasks.length := hperm.length_eq
  have hpt : 0 ≤ (tasks.length : ℚ) * tR := mul_nonneg (Nat.cast_nonneg _) ht
  have hpv : 0 ≤ (tasks.length : ℚ) * vR := mul_nonneg (Nat.cast_nonneg _) hv
  have hft : 0 ≤ ⌊(tasks.length : ℚ) * tR⌋ := Int.floor_nonneg.mpr hpt
  have hfv : 0 ≤ ⌊(tasks.length : ℚ) * vR⌋ := Int.floor_nonneg.mpr hpv
  have hcast_t : (((⌊(tasks.length : ℚ) * tR⌋).toNat : Nat) : Int) =
      ⌊(tasks.length : ℚ) * tR⌋ := Int.toNat_of_nonneg hft
  have hcast_v : (((⌊(tasks.length : ℚ) * vR⌋).toNat : Nat) : Int) =
      ⌊(tasks.length : ℚ) * vR⌋ := Int.toNat_of_nonneg hfv
  have htc : trainCount shuffled.length tR = ⌊(tasks.length : ℚ) * tR⌋ := by
    rw [trainCount, hN, goIntCast, if_pos hpt]
  have hvc : trainCount shuffled.length vR = ⌊(tasks.length : ℚ) * vR⌋ := by
    rw [trainCount, hN, goIntCast, if_pos hpv]
  have hbound : ⌊(tasks.length : ℚ) * tR⌋ + ⌊(tasks.length : ℚ) * vR⌋ ≤
      (tasks.length : Int) := by
    have h2 : (tasks.length : ℚ) * (tR + vR) ≤ (tasks.length : ℚ) * 1 :=
      mul_le_mul_of_nonneg_left hsum (Nat.cast_nonneg _)
    rw [mul_add, mul_one] at h2
    have h3 : ((⌊(tasks.length : ℚ) * tR⌋ + ⌊(tasks.length : ℚ) * vR⌋ : Int) : ℚ) ≤
        (tasks.length : ℚ) * tR + (tasks.length : ℚ) * vR := by
      push_cast
      exact add_le_add (Int.floor_le _) (Int.floor_le _)
    exact_mod_cast h3.trans h2
  have hnat : (⌊(tasks.length : ℚ) * tR⌋).toNat + (⌊(tasks.length : ℚ) * vR⌋).toNat ≤
      tasks.length := by omega
  have hassign : assignSubsets shuffled tR vR =
      assignFrom (((⌊(tasks.length : ℚ) * tR⌋).toNat : Nat) : Int)
        (((⌊(tasks.length : ℚ) * vR⌋).toNat : Nat) : Int) 0 shuffled := by
    rw [assignSubsets,
      show trainCount shuffled.length tR =
          (((⌊(tasks.length : ℚ) * tR⌋).toNat : Nat) : Int) from htc.trans hcast_t.symm,
      show trainCount shuffled.length vR =
          (((⌊(tasks.length : ℚ) * vR⌋).toNat : Nat) : Int) from hvc.trans hcast_v.symm]
  have hA : ((assignSubsets shuffled tR vR).filter (fun p => p.2 == "train")).map
      Prod.fst = shuffled.take (⌊(tasks.length : ℚ) * tR⌋).toNat := by
    rw [hassign]
    simpa using assignFrom_filter_train (⌊(tasks.length : ℚ) * tR⌋).toNat
      (⌊(tasks.length : ℚ) * vR⌋).toNat shuffled 0
  have hB : ((assignSubsets shuffled tR vR).filter (fun p => p.2 == "val")).map
      Prod.fst = (shuffled.drop (⌊(tasks.length : ℚ) * tR⌋).toNat).take
        (⌊(tasks.length : ℚ) * vR⌋).toNat := by
    rw [hassign]
    simpa using assignFrom_filter_val (⌊(tasks.length : ℚ) * tR⌋).toNat
      (⌊(tasks.length : ℚ) * vR⌋).toNat shuffled 0
  have hC : ((assignSubsets shuffled tR vR).filter (fun p => p.2 == "test")).map
      Prod.fst = shuffled.drop ((⌊(tasks.length : ℚ) * tR⌋).toNat +
        (⌊(tasks.length : ℚ) * vR⌋).toNat) := by
    rw [hassign]
    simpa using assignFrom_filter_test (⌊(tasks.length : ℚ) * tR⌋).toNat
      (⌊(tasks.length : ℚ) * vR⌋).toNat shuffled 0
  have hlen_train : ((assignSubsets shuffled tR vR).filter
      (fun p => p.2 == "train")).length = (⌊(tasks.length : ℚ) * tR⌋).toNat := by
    have hh := congrArg List.length hA
    rw [List.length_map, List.length_take, hN] at hh
    rw [hh]
    omega
  have hlen_val : ((assignSubsets shuffled tR vR).filter
      (fun p => p.2 == "val")).length = (⌊(tasks.length : ℚ) * vR⌋).toNat := by
    have hh := congrArg List.length hB
    rw [List.length_map, List.length_take, List.length_drop, hN] at hh
    rw [hh]
    omega
  have hlen_test : ((assignSubsets shuffled tR vR).filter
      (fun p => p.2 == "test")).length = tasks.length -
        (⌊(tasks.length : ℚ) * tR⌋).toNat - (⌊(tasks.length : ℚ) * vR⌋).toNat := by
    have hh := congrArg List.length hC
    rw [List.length_map, List.length_drop, hN] at hh
    rw [hh]
    omega
  refine ⟨hA, hB, hlen_train, hlen_val, hlen_test, ?_, ?_⟩
  · rw [hA, hB, hC, ← List.drop_drop, List.take_append_drop, List.take_append_drop]
    exact hperm
  · intro h0
    have hsh : shuffled = [] := List.perm_nil.mp (h0 ▸ hperm)
    rw [hassign, hsh]
    rfl

/-- C3 witness: five tasks shuffled to `[4,2,0,1,3]` with ratios
`(0.6, 0.2)`: train gets the first `⌊5*0.6⌋ = 3` positions `[4,2,0]`, val
the next `⌊5*0.2⌋ = 1` position `[1]`, test the remaining one. -/
theorem C3_witness :
    ((assignSubsets ([4, 2, 0, 1, 3] : List ℕ) (3/5 : ℚ) (1/5)).filter
        (fun p => p.2 == "train")).map Prod.fst = [4, 2, 0] ∧
    ((assignSubsets ([4, 2, 0, 1, 3] : List ℕ) (3/5 : ℚ) (1/5)).filter
        (fun p => p.2 == "val")).map Prod.fst = [1] ∧
    ((assignSubsets ([4, 2, 0, 1, 3] : List ℕ) (3/5 : ℚ) (1/5)).filter
        (fun p => p.2 == "test")).length = 1 := by
  have h := C3_partition ([0, 1, 2, 3, 4] : List ℕ) [4, 2, 0, 1, 3] (3/5) (1/5)
    (by decide) (by norm_num) (by norm_num) (by norm_num)
  have hfl_t : (⌊(([0, 1, 2, 3, 4] : List ℕ).length : ℚ) * (3/5)⌋).toNat = 3 := by
    have h3 : ⌊(([0, 1, 2, 3, 4] : List ℕ).length : ℚ) * (3/5)⌋ = 3 := by norm_num
    rw [h3]
    rfl
  have hfl_v : (⌊(([0, 1, 2, 3, 4] : List ℕ).length : ℚ) * (1/5)⌋).toNat = 1 := by
    have h1 : ⌊(([0, 1, 2, 3, 4] : List ℕ).length : ℚ) * (1/5)⌋ = 1 := by norm_num
    rw [h1]
    rfl
  refine ⟨?_, ?_, ?_⟩
  · rw [h.1, hfl_t]
    rfl
  · rw [h.2.1, hfl_t, hfl_v]
    rfl
  · rw [h.2.2.2.2.1, hfl_t, hfl_v]
    rfl

/-- C6: partitioning is deterministic given the random seed: in the
embedding the seed (in `main`, the sampled clock value) is an explicit
input, and two runs with the same task list, ratios and seed — even with
different worker completion orders — produce identical subset assignments;
randomness enters only through the seed handed to the PRNG. -/
theorem C6_deterministic {α : Type} (shuffle : Int → List α → List α)
    (seed1 seed2 : Int) (tasks1 tasks2 : List α) (tR1 tR2 vR1 vR2 : ℚ)
    (order1 order2 : List Nat) (hs : seed1 = seed2) (htk : tasks1 = tasks2)
    (htr : tR1 = tR2) (hvr : vR1 = vR2) :
    runAssignment shuffle seed1 tasks1 tR1 vR1 order1 =
      runAssignment shuffle seed2 tasks2 tR2 vR2 order2 := by
  subst hs
  subst htk
  subst htr
  subst hvr
  rfl

/-- C6 witness: a concrete shuffle function, seed, task list and two
different completion orders give identical assignments. -/
theorem C6_witness :
    runAssignment (fun s l => if s % 2 = 0 then l.reverse else l) 42
        ([1, 2, 3] : List ℕ) (1/2 : ℚ) (1/4) [0, 1, 2] =
      runAssignment (fun s l => if s % 2 = 0 then l.reverse else l) 42
        ([1, 2, 3] : List ℕ) (1/2 : ℚ) (1/4) [2, 0, 1] :=
  C6_deterministic (fun s l => if s % 2 = 0 then l.reverse else l) 42 42
    [1, 2, 3] [1, 2, 3] (1/2) (1/2) (1/4) (1/4) [0, 1, 2] [2, 0, 1]
    rfl rfl rfl rfl

/-- C2: the claim fails.  With 2 tasks and completion order `[1, 0]`
(task 1 finishes first — admissible under the capacity-4 gate), the
reported sequence is `[1, 1/2]`: the first value is `(idx+1)/total = 1`,
not completed/total `= 1/2`, and the sequence strictly decreases. -/
theorem C2_counterexample : admissibleOrder 2 [1, 0] ∧ ¬ progressClaim 2 [1, 0] := by
  constructor
  · exact ⟨by decide, by decide⟩
  · intro hcl
    have h1 : reportedProgress 2 [1, 0] = [1, 1/2] := by
      rw [reportedProgress]
      norm_num
  
    have hmono := hcl.2
    rw [h1, List.chain'_cons] at hmono
    have hle : (1 : ℚ) ≤ 1/2 := hmono.1
    norm_num at hle

/-- C2 (amended): the progress value reported when the task at shuffled
position `idx` completes is `(idx+1)/total`, not completed-count/total, and
the sequence of reported values need not be monotone; what does hold for
every admissible run is that the multiset of reported values is exactly
`{(i+1)/total : i < total}` — each task accounts for exactly one report,
all `total` of them occur before the batch reports overall completion
(`wg.Wait`, line 709), and every value lies in `(0, 1]`. -/
theorem C2_amended (total : Nat) (order : List Nat) (htot : 0 < total)
    (hperm : order.Perm (List.range total)) :
    (reportedProgress total order).length = total ∧
    (reportedProgress total order).Perm
      ((List.range total).map (fun k : Nat => ((k : ℚ) + 1) / (total : ℚ))) ∧
    ∀ q ∈ reportedProgress total order, 0 < q ∧ q ≤ 1 := by
  have htq : (0 : ℚ) < (total : ℚ) := by exact_mod_cast htot
  refine ⟨?_, hperm.map _, ?_⟩
  · rw [reportedProgress, List.length_map, hperm.length_eq, List.length_range]
  · intro q hq
    rw [reportedProgress, List.mem_map] at hq
    obtain ⟨idx, hidx, rfl⟩ := hq
    have hidx2 : idx < total := by
      have hmem := hperm.mem_iff.mp hidx
      simpa using hmem
    constructor
    · apply div_pos _ htq
      positivity
    · rw [div_le_one htq]
      exact_mod_cast hidx2

/-- C2 witness: the amended theorem at `total = 2`, completion order
`[1, 0]`. -/
theorem C2_witness :
    (reportedProgress 2 [1, 0]).length = 2 ∧
    ∀ q ∈ reportedProgress 2 [1, 0], 0 < q ∧ q ≤ 1 := by
  have h := C2_amended 2 [1, 0] (by norm_num) (by decide)
  exact ⟨h.1, h.2.2⟩

/-- C8: a task whose source image fails to open or decode is abandoned
silently — no image output, no label output, annotation conversion not
attempted — while every sibling task's result is exactly what the normal
per-task pipeline produces for its own inputs, and the batch completes with
one result per task rather than aborting (src/main.go lines 668-709). -/
theorem C8_decode_isolation (doProc : Bool) (cm : String → Option Nat)
    (envs : List TaskEnv) (i : Nat) (env : TaskEnv)
    (henv : envs[i]? = some env)
    (hfail : (if doProc then env.decoded else env.header) = none) :
    (runBatch doProc cm envs).length = envs.length ∧
    (runBatch doProc cm envs)[i]? = some ⟨false, none, false⟩ ∧
    ∀ j : Nat, (runBatch doProc cm envs)[j]? =
      (envs[j]?).map (processTask doProc cm) := by
  have hpt : processTask doProc cm env = ⟨false, none, false⟩ := by
    simp [processTask, hfail]
  refine ⟨by rw [runBatch, List.length_map], ?_, ?_⟩
  · rw [runBatch, List.getElem?_map, henv, Option.map_some', hpt]
  · intro j
    rw [runBatch, List.getElem?_map]

/-- C8 witness: a 3-task batch whose middle task's image is undecodable;
tasks 1 and 3 get their full results and the batch yields 3 results. -/
theorem C8_witness :
    (runBatch true (fun s => if s = "x" then some 0 else none)
        [⟨some (100, 50), some (100, 50), true, some ⟨[], [⟨"x", 10, 10, 30, 20⟩]⟩⟩,
         ⟨none, none, true, some ⟨[], [⟨"x", 10, 10, 30, 20⟩]⟩⟩,
         ⟨some (8, 8), some (8, 8), false, none⟩]).length = 3 ∧
    (runBatch true (fun s => if s = "x" then some 0 else none)
        [⟨some (100, 50), some (100, 50), true, some ⟨[], [⟨"x", 10, 10, 30, 20⟩]⟩⟩,
         ⟨none, none, true, some ⟨[], [⟨"x", 10, 10, 30, 20⟩]⟩⟩,
         ⟨some (8, 8), some (8, 8), false, none⟩])[1]? =
      some ⟨false, none, false⟩ := by
  have h := C8_decode_isolation true (fun s => if s = "x" then some 0 else none)
    [⟨some (100, 50), some (100, 50), true, some ⟨[], [⟨"x", 10, 10, 30, 20⟩]⟩⟩,
     ⟨none, none, true, some ⟨[], [⟨"x", 10, 10, 30, 20⟩]⟩⟩,
     ⟨some (8, 8), some (8, 8), false, none⟩]
    1 ⟨none, none, true, some ⟨[], [⟨"x", 10, 10, 30, 20⟩]⟩⟩ rfl rfl
  exact ⟨h.1, h.2.1⟩

theorem removeLoop_deleted (target : String) :
    ∀ ls : List String, removeLoop target ls true =
      ls.filter (fun l => l.trim != "") := by
  intro ls
  induction ls with
  | nil => rfl
  | cons l ls ih =>
    simp only [removeLoop]
    rw [if_neg (by simp)]
    by_cases hb : l.trim ≠ ""
    · rw [if_pos hb, ih, List.filter_cons_of_pos (by simpa using hb)]
    · rw [if_neg hb, ih, List.filter_cons_of_neg (by simpa using hb)]

/-- C10: the remove-line operation deletes at most one line — exactly the
first line whose whitespace-trimmed text equals the trimmed target (that is
`List.eraseP` on the split lines) — additionally drops every blank or
whitespace-only line, and rewrites the file as the survivors joined by one
`"\n"` with no trailing newline (src/main.go lines 361-377). -/
theorem C10_remove_at_most_one (content target : String) :
    removeLabelFromFile content target =
      String.intercalate "\n"
        (((content.splitOn "\n").eraseP (fun l => l.trim == target.trim)).filter
          (fun l => l.trim != "")) := by
  rw [removeLabelFromFile]
  congr 1
  generalize content.splitOn "\n" = ls
  induction ls with
  | nil => rfl
  | cons l ls ih =>
    simp only [removeLoop]
    by_cases hm : l.trim = target.trim
    · rw [if_pos (by simp [hm]), List.eraseP_cons_of_pos (by simp [hm])]
      exact removeLoop_deleted target ls
    · rw [if_neg (by simp [hm]), List.eraseP_cons_of_neg (by simp [hm])]
      by_cases hb : l.trim ≠ ""
      · rw [if_pos hb, ih, List.filter_cons_of_pos (by simpa using hb)]
      · rw [if_neg hb, ih, List.filter_cons_of_neg (by simpa using hb)]
